import Mathlib

/-!
Verification of the Subtitle Timing Synchronization & Segmentation Engine
of the Clipify repository, embedded from scripts/create_interactive_subtitles.py.

Strings of the Python source are modelled as lists of characters; Python
floats are modelled as exact rationals; Python functions that can raise are
modelled with Option or Except.
-/

/-- Models the character class matched by Python's str.split / str.strip
whitespace handling and by the regex class \s, restricted to ASCII:
space, tab, LF, CR, vertical tab, form feed. -/
def pyWs (c : Char) : Bool :=
  c == ' ' || c == '\t' || c == '\n' || c == '\r' || c == '\x0b' || c == '\x0c'

/-- Models Python str.strip(): drop whitespace from both ends. -/
def trimL (l : List Char) : List Char :=
  ((l.dropWhile pyWs).reverse.dropWhile pyWs).reverse

/-- Accumulator worker for pySplitOn; the accumulator holds the current
group in reverse order. -/
def pySplitAux (sep : Char) (acc : List Char) : List Char → List (List Char)
  | [] => [acc.reverse]
  | c :: rest =>
    if c = sep then acc.reverse :: pySplitAux sep [] rest
    else pySplitAux sep (c :: acc) rest

/-- Models Python str.split(sep) for a one-character separator: splits on
every occurrence, keeping empty groups, so the result always has one more
group than there are separators. -/
def pySplitOn (sep : Char) (l : List Char) : List (List Char) :=
  pySplitAux sep [] l

/-- Accumulator worker for pyWords. -/
def pyWordsAux (acc : List Char) : List Char → List (List Char)
  | [] => if acc.isEmpty then [] else [acc.reverse]
  | c :: rest =>
    if pyWs c then
      if acc.isEmpty then pyWordsAux [] rest else acc.reverse :: pyWordsAux [] rest
    else pyWordsAux (c :: acc) rest

/-- Models Python str.split() with no argument: split on runs of
whitespace, dropping empty tokens. -/
def pyWords (l : List Char) : List (List Char) :=
  pyWordsAux [] l

/-- Models Python ' '.join(words): interleave a single space. -/
def joinSp : List (List Char) → List Char
  | [] => []
  | [w] => w
  | w :: ws => w ++ ' ' :: joinSp ws

/-- Decimal value of a digit string, most significant digit first. -/
def digitsVal (l : List Char) : ℕ :=
  l.foldl (fun acc c => 10 * acc + (c.toNat - 48)) 0

/-- Nonnegative half of the Python int() model: a nonempty all-digit
string parses to its decimal value, anything else fails. -/
def pyNat (l : List Char) : Option ℕ :=
  if l.isEmpty then none
  else if l.all Char.isDigit then some (digitsVal l) else none

/-- Models Python int(str): surrounding whitespace is stripped, one
optional sign is allowed, then decimal digits; ValueError is modelled as
none. Underscore digit separators of Python are not modelled. -/
def pyIntL (l : List Char) : Option ℤ :=
  let t := trimL l
  if t.headD ' ' = '-' then (pyNat t.tail).map (fun n => -(n : ℤ))
  else if t.headD ' ' = '+' then (pyNat t.tail).map (fun n => (n : ℤ))
  else (pyNat t).map (fun n => (n : ℤ))

/-- Models timestamp_to_seconds: split HH:MM:SS,mmm on the comma into
exactly two parts (tuple unpacking raises otherwise), split the time part
on ':' into exactly three fields, parse all fields with int(), and return
h*3600 + m*60 + s + ms/1000. -/
def timestamp_to_seconds (ts : List Char) : Option ℚ :=
  match pySplitOn ',' ts with
  | [time_part, ms_part] =>
    match pySplitOn ':' time_part with
    | [hs, ms, ss] =>
      match pyIntL hs, pyIntL ms, pyIntL ss, pyIntL ms_part with
      | some h, some m, some s, some msv =>
        some ((h : ℚ) * 3600 + (m : ℚ) * 60 + (s : ℚ) + (msv : ℚ) / 1000)
      | _, _, _, _ => none
    | _ => none
  | _ => none

/-- Models time_to_seconds: split HH:MM:SS on ':' into exactly three
fields, parse each with int(), and return h*3600 + m*60 + s. -/
def time_to_seconds (ts : List Char) : Option ℚ :=
  match pySplitOn ':' ts with
  | [hs, ms, ss] =>
    match pyIntL hs, pyIntL ms, pyIntL ss with
    | some h, some m, some s => some ((h : ℚ) * 3600 + (m : ℚ) * 60 + (s : ℚ))
    | _, _, _ => none
  | _ => none

/-- Models the spec's single Timestamp Codec decode entry point, which the
source realises as the two functions timestamp_to_seconds (track format,
used by the transcript parser) and time_to_seconds (window format, used on
the clip descriptor): the track format is tried first, then the window
format. -/
def decode (ts : List Char) : Option ℚ :=
  match timestamp_to_seconds ts with
  | some v => some v
  | none => time_to_seconds ts

/-- Models one timestamp group of the parser's regex, the pattern
dd:dd:dd,ddd over exactly twelve characters, with the regex class d
modelled as ASCII digits. -/
def isTs (t : List Char) : Bool :=
  t.length == 12 &&
  (t.getD 0 ' ').isDigit && (t.getD 1 ' ').isDigit && (t.getD 2 ' ') == ':' &&
  (t.getD 3 ' ').isDigit && (t.getD 4 ' ').isDigit && (t.getD 5 ' ') == ':' &&
  (t.getD 6 ' ').isDigit && (t.getD 7 ' ').isDigit && (t.getD 8 ' ') == ',' &&
  (t.getD 9 ' ').isDigit && (t.getD 10 ' ').isDigit && (t.getD 11 ' ').isDigit

/-- Follows the spec's words: the strict window pattern HH:MM:SS over
exactly eight characters, two fixed-width digit fields per unit. The
source never checks this pattern; the definition exists only to state
what the spec calls a pattern match for the window format. -/
def specWindowPattern (t : List Char) : Bool :=
  t.length == 8 &&
  (t.getD 0 ' ').isDigit && (t.getD 1 ' ').isDigit && (t.getD 2 ' ') == ':' &&
  (t.getD 3 ' ').isDigit && (t.getD 4 ' ').isDigit && (t.getD 5 ' ') == ':' &&
  (t.getD 6 ' ').isDigit && (t.getD 7 ' ').isDigit

/-- Models re.match of the parser's timestamp-line regex: anchored at the
start of the line, a twelve-character timestamp group, optional
whitespace, the arrow, optional whitespace, a second timestamp group, and
arbitrary trailing characters. Returns the two captured groups. -/
def matchTsLine (cs : List Char) : Option (List Char × List Char) :=
  if isTs (cs.take 12) then
    if (((cs.drop 12).dropWhile pyWs).take 3) = ['-', '-', '>'] then
      if isTs (((((cs.drop 12).dropWhile pyWs).drop 3).dropWhile pyWs).take 12) then
        some (cs.take 12, ((((cs.drop 12).dropWhile pyWs).drop 3).dropWhile pyWs).take 12)
      else none
    else none
  else none

/-- Index of the last LF in a character list, if any. -/
def lastNlIdx : List Char → Option ℕ
  | [] => none
  | c :: rest =>
    match lastNlIdx rest with
    | some j => some (j + 1)
    | none => if c = '\n' then some 0 else none

/-- Models one greedy match of the block-separator regex at the head of
the input: an LF, then greedily as much whitespace as possible ending in
an LF. Returns the remainder after the separator on a match. -/
def sepMatch : List Char → Option (List Char)
  | [] => none
  | c :: rest =>
    if c = '\n' then
      match lastNlIdx (rest.takeWhile pyWs) with
      | some j => some (rest.drop (j + 1))
      | none => none
    else none

/-- Fuelled scanner for splitBlocks; every step consumes at least one
character, so fuel equal to the input length always suffices and the
fuel-exhausted branch is unreachable from splitBlocks. -/
def splitBlocksFuel : ℕ → List Char → List Char → List (List Char)
  | _, acc, [] => [acc.reverse]
  | 0, acc, l => [acc.reverse ++ l]
  | fuel + 1, acc, c :: rest =>
    match sepMatch (c :: rest) with
    | some rem => acc.reverse :: splitBlocksFuel fuel [] rem
    | none => splitBlocksFuel fuel (c :: acc) rest

/-- Models re.split of the block-separator regex over the whole content:
scan left to right, cutting at every greedy separator match. -/
def splitBlocks (cs : List Char) : List (List Char) :=
  splitBlocksFuel cs.length [] cs

/-- One parsed transcript line, the dict with keys start, end, text built
by parse_srt_file; the end key is named stop because end is reserved. -/
structure SubtitleEntry where
  start : ℚ
  stop : ℚ
  text : List Char
deriving DecidableEq, Repr

/-- Models the per-block body of the parse_srt_file loop: strip the
block, split into lines, require at least three lines, match the
timestamp regex on the second line (a failed match drops the block), join
the remaining lines with single spaces, and decode both timestamps. A
decode failure is an uncaught ValueError inside the try body, modelled as
an error value. -/
def parseBlockE (block : List Char) : Except (List Char) (Option SubtitleEntry) :=
  if 3 ≤ (pySplitOn '\n' (trimL block)).length then
    match matchTsLine ((pySplitOn '\n' (trimL block)).getD 1 []) with
    | some (st, en) =>
      match timestamp_to_seconds st, timestamp_to_seconds en with
      | some a, some b =>
        .ok (some ⟨a, b, trimL (joinSp ((pySplitOn '\n' (trimL block)).drop 2))⟩)
      | _, _ => .error ((pySplitOn '\n' (trimL block)).getD 1 [])
    | none => .ok none
  else .ok none

/-- Models the try body of parse_srt_file on already-read content: strip
the content, split into blocks, process every block, and collect the
entries of the blocks that produced one, in source order. -/
def parseSrtE (content : List Char) : Except (List Char) (List SubtitleEntry) :=
  ((splitBlocks (trimL content)).mapM parseBlockE).map (fun l => l.filterMap id)

/-- Models parse_srt_file including its try/except: none models a file
whose read raises (unreadable file), and any exception from the body is
caught and turned into the empty list. -/
def parse_srt_file (contents : Option (List Char)) : List SubtitleEntry :=
  match contents with
  | none => []
  | some c =>
    match parseSrtE c with
    | .ok l => l
    | .error _ => []

/-- One entry of clip_subtitles: a subtitle re-based to window-local
time; the end key is named stop because end is reserved. -/
structure ClippedEntry where
  start : ℚ
  stop : ℚ
  text : List Char
deriving DecidableEq, Repr

/-- Models one iteration of the clip_subtitles filter loop in
add_interactive_subtitles_with_timing: the overlap test, the re-basing
adjusted_start = max(0, start - clip_start) and
adjusted_end = min(clip_duration, end - clip_start), and the meaningful
duration guard. -/
def emitClipped (clip_start clip_end : ℚ) (sub : SubtitleEntry) : Option ClippedEntry :=
  if sub.stop > clip_start ∧ sub.start < clip_end then
    if min (clip_end - clip_start) (sub.stop - clip_start) > max 0 (sub.start - clip_start) ∧
        min (clip_end - clip_start) (sub.stop - clip_start) > 0 then
      some ⟨max 0 (sub.start - clip_start),
            min (clip_end - clip_start) (sub.stop - clip_start), sub.text⟩
    else none
  else none

/-- Models the whole clip_subtitles loop: one pass over the entries in
source order, appending the re-based entry whenever the guards pass. -/
def clipEntries (clip_start clip_end : ℚ) : List SubtitleEntry → List ClippedEntry
  | [] => []
  | sub :: rest =>
    match emitClipped clip_start clip_end sub with
    | some c => c :: clipEntries clip_start clip_end rest
    | none => clipEntries clip_start clip_end rest

/-- Models the window-handling path of
add_interactive_subtitles_with_timing: decode the two HH:MM:SS strings of
the clip descriptor (a ValueError there propagates out of the function),
then filter and re-base the parsed entries. -/
def clipPipeline (startStr endStr : List Char) (subs : List SubtitleEntry) :
    Except (List Char) (List ClippedEntry) :=
  match time_to_seconds startStr with
  | none => .error startStr
  | some clip_start =>
    match time_to_seconds endStr with
    | none => .error endStr
    | some clip_end => .ok (clipEntries clip_start clip_end subs)

/-- One caption text clip as produced by create_subtitle_clip, reduced to
its timing payload: the displayed text, the set_start value, and
set_start plus set_duration; the end key is named stop. -/
structure CaptionSegment where
  text : List Char
  start : ℚ
  stop : ℚ
deriving DecidableEq, Repr

/-- The max_words constant of create_subtitle_clip. -/
def max_words : ℕ := 5

/-- Models create_subtitle_clip: tokenize the text, and when there are
more than max_words words, cut the word list into consecutive chunks of
max_words words (range(0, len(words), max_words), written here as
List.range' 0 ceil(n/5) 5), giving chunk i the duration
duration * len(chunk)/len(words) and the start
start + duration * i/len(words); otherwise emit one clip spanning the
whole entry. -/
def create_subtitle_clip (text : List Char) (start_time end_time : ℚ) :
    List CaptionSegment :=
  let duration := end_time - start_time
  let words := pyWords text
  let n := words.length
  if max_words < n then
    (List.range' 0 ((n + 4) / 5) 5).map (fun i =>
      let chunk_words := (words.drop i).take 5
      let chunk_start := start_time + duration * (i : ℚ) / (n : ℚ)
      ⟨joinSp chunk_words, chunk_start,
        chunk_start + duration * (chunk_words.length : ℚ) / (n : ℚ)⟩)
  else
    [⟨joinSp words, start_time, start_time + duration⟩]

/-- One word-highlight clip as produced by
create_word_highlighting_clips, reduced to its timing payload. -/
structure HighlightSegment where
  word : List Char
  start : ℚ
  stop : ℚ
deriving DecidableEq, Repr

/-- Models the enumerated loop body of create_word_highlighting_clips:
word i spans [start + i*tpw, min(start + (i+1)*tpw, end)), and a word
whose span has non-positive duration is skipped. -/
def highlightAux (start_time end_time tpw : ℚ) : ℕ → List (List Char) → List HighlightSegment
  | _, [] => []
  | i, w :: rest =>
    let word_start := start_time + (i : ℚ) * tpw
    let word_end := min (start_time + ((i : ℚ) + 1) * tpw) end_time
    if word_end - word_start ≤ 0 then highlightAux start_time end_time tpw (i + 1) rest
    else ⟨w, word_start, word_end⟩ :: highlightAux start_time end_time tpw (i + 1) rest

/-- Models create_word_highlighting_clips: empty word lists yield no
clips, otherwise the entry's duration is divided evenly over the words. -/
def create_word_highlighting_clips (text : List Char) (start_time end_time : ℚ) :
    List HighlightSegment :=
  let duration := end_time - start_time
  let words := pyWords text
  if words.isEmpty then []
  else highlightAux start_time end_time (duration / (words.length : ℚ)) 0 words

/-- The layer tag of the spec's RenderTimeline; in the source the layer
is which of the two creator functions produced the clip. -/
inductive Layer where
  | caption : Layer
  | highlight : Layer
deriving DecidableEq, Repr

/-- One element of the assembled subtitle_clips list, tagged with its
layer. -/
structure TimelineSeg where
  layer : Layer
  text : List Char
  start : ℚ
  stop : ℚ
deriving DecidableEq, Repr

/-- Caption-layer view of one clipped entry's create_subtitle_clip
output. -/
def capSegsOf (sub : ClippedEntry) : List TimelineSeg :=
  (create_subtitle_clip sub.text sub.start sub.stop).map
    (fun g => ⟨Layer.caption, g.text, g.start, g.stop⟩)

/-- Highlight-layer view of one clipped entry's
create_word_highlighting_clips output. -/
def hlSegsOf (sub : ClippedEntry) : List TimelineSeg :=
  (create_word_highlighting_clips sub.text sub.start sub.stop).map
    (fun g => ⟨Layer.highlight, g.word, g.start, g.stop⟩)

/-- Models the subtitle_clips assembly loop of
add_interactive_subtitles_with_timing: for every clipped entry that lies
within the video duration, append its caption clips and then its
highlight clips; no reordering happens afterwards. -/
def assembleTimeline (videoDur : ℚ) : List ClippedEntry → List TimelineSeg
  | [] => []
  | sub :: rest =>
    if sub.start < videoDur ∧ sub.stop ≤ videoDur then
      (capSegsOf sub ++ hlSegsOf sub) ++ assembleTimeline videoDur rest
    else assembleTimeline videoDur rest

/-! ### Helper facts about characters and concrete inputs -/

lemma charNat0 : '0'.toNat = 48 := rfl
lemma charNat1 : '1'.toNat = 49 := rfl
lemma charNat2 : '2'.toNat = 50 := rfl
lemma charNat3 : '3'.toNat = 51 := rfl
lemma charNat4 : '4'.toNat = 52 := rfl
lemma charNat5 : '5'.toNat = 53 := rfl
lemma charNat6 : '6'.toNat = 54 := rfl
lemma charNat7 : '7'.toNat = 55 := rfl
lemma charNat8 : '8'.toNat = 56 := rfl
lemma charNat9 : '9'.toNat = 57 := rfl

/-- The six-word sample text of the spec's worked scenario. -/
def sampleText : List Char := "This is a test sentence here".toList

/-! ### C3, C4: the Window Clipper -/

/-- C3: for every window with end > start, an entry is emitted iff the
strict overlap test holds and, after re-basing, the adjusted interval has
positive extent; boundary-touching entries are excluded, and the output
is the in-order sublist of re-based survivors. -/
theorem window_clipper_inclusion (clip_start clip_end : ℚ) (hw : clip_start < clip_end) :
    (∀ e : SubtitleEntry, (emitClipped clip_start clip_end e).isSome = true ↔
      (e.stop > clip_start ∧ e.start < clip_end ∧
        min (clip_end - clip_start) (e.stop - clip_start) > max 0 (e.start - clip_start) ∧
        min (clip_end - clip_start) (e.stop - clip_start) > 0)) ∧
    (∀ subs, clipEntries clip_start clip_end subs =
      subs.filterMap (emitClipped clip_start clip_end)) ∧
    (∀ e : SubtitleEntry, e.stop = clip_start → emitClipped clip_start clip_end e = none) ∧
    (∀ e : SubtitleEntry, e.start = clip_end → emitClipped clip_start clip_end e = none) := by
  refine ⟨fun e => ?_, fun subs => ?_, fun e he => ?_, fun e he => ?_⟩
  · unfold emitClipped
    split_ifs with h1 h2
    · simp only [Option.isSome_some, true_iff]
      exact ⟨h1.1, h1.2, h2.1, h2.2⟩
    · exact iff_of_false (by simp) (fun hc => h2 ⟨hc.2.2.1, hc.2.2.2⟩)
    · exact iff_of_false (by simp) (fun hc => h1 ⟨hc.1, hc.2.1⟩)
  · induction subs with
    | nil => rfl
    | cons s t ih =>
      rw [List.filterMap_cons]
      unfold clipEntries
      cases h : emitClipped clip_start clip_end s <;> simp [h, ih]
  · simp [emitClipped, he]
  · simp [emitClipped, he]

/-- Witness for C3 at a concrete window and entry. -/
theorem window_clipper_inclusion_witness :
    (emitClipped 0 10 ⟨2, 6, ['x']⟩).isSome = true :=
  ((window_clipper_inclusion 0 10 (by norm_num)).1 ⟨2, 6, ['x']⟩).mpr
    (by norm_num [min_def, max_def])

/-- C4: every emitted ClippedEntry satisfies 0 ≤ start < stop ≤ window
duration and carries the source text unmodified. -/
theorem clipped_entry_invariant (clip_start clip_end : ℚ) (hw : clip_start < clip_end)
    (e : SubtitleEntry) (c : ClippedEntry)
    (h : emitClipped clip_start clip_end e = some c) :
    0 ≤ c.start ∧ c.start < c.stop ∧ c.stop ≤ clip_end - clip_start ∧ c.text = e.text := by
  unfold emitClipped at h
  split_ifs at h with h1 h2
  injection h with h
  subst h
  exact ⟨le_max_left _ _, h2.1, min_le_left _ _, rfl⟩

/-- Witness for C4 at a concrete window and entry. -/
theorem clipped_entry_invariant_witness :
    (0 : ℚ) ≤ 2 ∧ (2 : ℚ) < 6 ∧ (6 : ℚ) ≤ 10 - 0 ∧ (['x'] : List Char) = ['x'] :=
  clipped_entry_invariant 0 10 (by norm_num) ⟨2, 6, ['x']⟩ ⟨2, 6, ['x']⟩
    (by norm_num [emitClipped, min_def, max_def])

/-! ### C7: degenerate windows raise nothing and clip to nothing -/

/-- C7 (amended): for every window whose parsed end is at or before its
parsed start, the pipeline raises no error: the Window Clipper emits no
entries and the result is the ok empty list. -/
theorem degenerate_window_yields_ok_empty (s1 s2 : List Char) (cs ce : ℚ)
    (subs : List SubtitleEntry)
    (h1 : time_to_seconds s1 = some cs) (h2 : time_to_seconds s2 = some ce)
    (hle : ce ≤ cs) :
    clipPipeline s1 s2 subs = Except.ok [] := by
  unfold clipPipeline
  rw [h1, h2]
  show Except.ok (clipEntries cs ce subs) = _
  have hempty : clipEntries cs ce subs = [] := by
    induction subs with
    | nil => rfl
    | cons s t ih =>
      have hnone : emitClipped cs ce s = none := by
        unfold emitClipped
        split_ifs with hA hB
        · exfalso
          have := min_le_left (ce - cs) (s.stop - cs)
          linarith [hB.2]
        · rfl
        · rfl
      unfold clipEntries
      rw [hnone, ih]
  rw [hempty]

/-- Witness for the amended C7 at a concrete degenerate window. -/
theorem degenerate_window_yields_ok_empty_witness :
    clipPipeline ( "00:00:05".toList) ( "00:00:03".toList) [⟨0, 9, []⟩] = Except.ok [] :=
  degenerate_window_yields_ok_empty _ _ 5 3 _
    (by norm_num +decide [time_to_seconds, pySplitOn, pySplitAux, pyIntL, pyNat, trimL, pyWs,
      digitsVal, charNat0, charNat3, charNat5])
    (by norm_num +decide [time_to_seconds, pySplitOn, pySplitAux, pyIntL, pyNat, trimL, pyWs,
      digitsVal, charNat0, charNat3, charNat5])
    (by norm_num)

/-- Counterexample to C7 as stated: a zero-width window produces an ok
result (the empty clip list), not a propagated error, even for a
transcript entry overlapping the window position. -/
theorem degenerate_window_no_error :
    clipPipeline ( "00:00:05".toList) ( "00:00:05".toList) [⟨3, 7, []⟩] = Except.ok [] := by
  norm_num +decide [clipPipeline, time_to_seconds, pySplitOn, pySplitAux, pyIntL, pyNat,
    trimL, pyWs, digitsVal, charNat0, charNat5, clipEntries, emitClipped, min_def, max_def]

/-! ### C8: the Caption Segmenter on an empty word list -/

/-- C8 (amended): a text that tokenizes to no words yields exactly one
CaptionSegment with empty text spanning the whole entry, not an empty
sequence; no error is raised. -/
theorem empty_words_single_segment (text : List Char) (s e : ℚ)
    (h : pyWords text = []) :
    create_subtitle_clip text s e = [⟨[], s, e⟩] := by
  simp [create_subtitle_clip, h, max_words, joinSp]

/-- Witness for the amended C8 on whitespace-only text. -/
theorem empty_words_single_segment_witness :
    create_subtitle_clip ( " ".toList) 1 3 = [⟨[], 1, 3⟩] :=
  empty_words_single_segment _ 1 3 (by decide)

/-- Counterexample to C8 as stated: on empty text the Caption Segmenter
returns a one-element sequence, which is not the empty sequence. -/
theorem empty_words_not_empty_output :
    create_subtitle_clip ([] : List Char) 1 3 = [⟨[], 1, 3⟩] ∧
    ([(⟨[], 1, 3⟩ : CaptionSegment)] : List CaptionSegment) ≠ [] := by
  constructor
  · norm_num +decide [create_subtitle_clip, pyWords, pyWordsAux, max_words, joinSp]
  · simp

/-! ### C2: the worked six-word scenario -/

/-- Counterexample to C2 as stated: for the entry [2, 6] with the
six-word sample text inside the window [0, 10], the first caption
segment's end (and the second's start) is 16/3 = 5.333..., not the 5.6
the claim asserts. -/
theorem scenario_boundary_is_sixteen_thirds :
    clipEntries 0 10 [⟨2, 6, sampleText⟩] = [⟨2, 6, sampleText⟩] ∧
    (create_subtitle_clip sampleText 2 6).map (fun g => (g.start, g.stop)) =
      [(2, 16/3), (16/3, 6)] ∧
    ((16 : ℚ)/3 ≠ 28/5) := by
  refine ⟨?_, ?_, by norm_num⟩
  · norm_num +decide [clipEntries, emitClipped, min_def, max_def, sampleText]
  · norm_num +decide [create_subtitle_clip, pyWords, pyWordsAux, pyWs, max_words,
      List.range', joinSp, sampleText]

/-- C2 (amended): the scenario yields the two caption segments
"This is a test sentence" on [2, 16/3) and "here" on [16/3, 6), and six
highlight segments of duration 2/3 each lying within [2, 6]. -/
theorem scenario_six_words (w : List Char) (hw : w = sampleText) :
    clipEntries 0 10 [⟨2, 6, w⟩] = [⟨2, 6, w⟩] ∧
    create_subtitle_clip w 2 6 =
      [⟨ "This is a test sentence".toList, 2, 16/3⟩, ⟨ "here".toList, 16/3, 6⟩] ∧
    create_word_highlighting_clips w 2 6 =
      [⟨ "This".toList, 2, 8/3⟩, ⟨ "is".toList, 8/3, 10/3⟩, ⟨ "a".toList, 10/3, 4⟩,
        ⟨ "test".toList, 4, 14/3⟩, ⟨ "sentence".toList, 14/3, 16/3⟩, ⟨ "here".toList, 16/3, 6⟩] ∧
    (∀ g ∈ create_word_highlighting_clips w 2 6,
      g.stop - g.start = 2/3 ∧ 2 ≤ g.start ∧ g.stop ≤ 6) := by
  subst hw
  have hhl : create_word_highlighting_clips sampleText 2 6 =
      [⟨ "This".toList, 2, 8/3⟩, ⟨ "is".toList, 8/3, 10/3⟩, ⟨ "a".toList, 10/3, 4⟩,
        ⟨ "test".toList, 4, 14/3⟩, ⟨ "sentence".toList, 14/3, 16/3⟩,
        ⟨ "here".toList, 16/3, 6⟩] := by
    norm_num +decide [create_word_highlighting_clips, highlightAux, pyWords, pyWordsAux,
      pyWs, min_def, sampleText]
  refine ⟨?_, ?_, hhl, ?_⟩
  · norm_num +decide [clipEntries, emitClipped, min_def, max_def, sampleText]
  · norm_num +decide [create_subtitle_clip, pyWords, pyWordsAux, pyWs, max_words,
      List.range', joinSp, sampleText]
  · intro g hg
    rw [hhl] at hg
    simp only [List.mem_cons, List.not_mem_nil, or_false] at hg
    rcases hg with rfl | rfl | rfl | rfl | rfl | rfl <;> norm_num

/-- Witness for the amended C2, applying it to the sample text. -/
theorem scenario_six_words_witness :
    clipEntries 0 10 [⟨2, 6, sampleText⟩] = [⟨2, 6, sampleText⟩] ∧
    (2 : ℚ) ≤ 2 :=
  ⟨(scenario_six_words sampleText rfl).1, le_refl 2⟩

/-! ### C9: the Timestamp Codec -/

/-- Splitting a list that does not contain the separator yields a single
group: the accumulator followed by the rest. -/
lemma pySplitAux_of_not_mem (sep : Char) (acc l : List Char) (h : sep ∉ l) :
    pySplitAux sep acc l = [acc.reverse ++ l] := by
  induction l generalizing acc with
  | nil => simp [pySplitAux]
  | cons c rest ih =>
    rw [List.mem_cons] at h
    push_neg at h
    have hc : ¬(c = sep) := fun hh => h.1 hh.symm
    rw [pySplitAux, if_neg hc, ih _ h.2]
    simp

/-- C9 (amended): decode accepts both the track format and the window
format and returns h*3600 + m*60 + s (+ ms/1000); it fails when the
separators are missing or a field is non-numeric, but it does not
enforce field widths: numeric fields of any width are accepted, so
"0:0:1,5" decodes to 1.005 instead of failing. -/
theorem codec_decode :
    decode ( "00:00:01,500".toList) = some (3/2) ∧
    decode ( "01:00:00,000".toList) = some 3600 ∧
    decode ( "00:00:10".toList) = some 10 ∧
    (∀ ts : List Char, ',' ∉ ts → ':' ∉ ts → decode ts = none) ∧
    decode ( "aa:bb:cc,ddd".toList) = none ∧
    decode ( "0:0:1,5".toList) = some (201/200) := by
  refine ⟨?_, ?_, ?_, fun ts hcomma hcolon => ?_, ?_, ?_⟩
  · norm_num +decide [decode, timestamp_to_seconds, pySplitOn, pySplitAux, pyIntL, pyNat,
      trimL, pyWs, digitsVal, charNat0, charNat1, charNat5]
  · norm_num +decide [decode, timestamp_to_seconds, pySplitOn, pySplitAux, pyIntL, pyNat,
      trimL, pyWs, digitsVal, charNat0, charNat1]
  · norm_num +decide [decode, timestamp_to_seconds, time_to_seconds, pySplitOn, pySplitAux,
      pyIntL, pyNat, trimL, pyWs, digitsVal, charNat0, charNat1]
  · unfold decode timestamp_to_seconds time_to_seconds pySplitOn
    rw [pySplitAux_of_not_mem ',' [] ts hcomma, pySplitAux_of_not_mem ':' [] ts hcolon]
  · norm_num +decide [decode, timestamp_to_seconds, time_to_seconds, pySplitOn, pySplitAux,
      pyIntL, pyNat, trimL, pyWs, digitsVal]
  · norm_num +decide [decode, timestamp_to_seconds, pySplitOn, pySplitAux, pyIntL, pyNat,
      trimL, pyWs, digitsVal, charNat0, charNat1, charNat5]

/-- Witness for the amended C9, applying the missing-separator clause to
a concrete digits-only string. -/
theorem codec_decode_witness : decode ( "059".toList) = none :=
  codec_decode.2.2.2.1 _ (by decide) (by decide)

/-- Counterexample to C9 as stated: "0:0:1,5" matches neither the strict
track pattern nor the strict window pattern, yet decode accepts it and
returns 1.005 — the claimed failure on wrong field width does not
happen. -/
theorem codec_width_not_enforced :
    isTs ( "0:0:1,5".toList) = false ∧
    specWindowPattern ( "0:0:1,5".toList) = false ∧
    decode ( "0:0:1,5".toList) = some (201/200) := by
  refine ⟨by decide, by decide, ?_⟩
  norm_num +decide [decode, timestamp_to_seconds, pySplitOn, pySplitAux, pyIntL, pyNat,
    trimL, pyWs, digitsVal, charNat0, charNat1, charNat5]

/-! ### C5: the Word Highlighter -/

/-- When every word in range has a positive clamped span, no word is
skipped: the output has one segment per word. -/
lemma highlightAux_length (s e tpw : ℚ) :
    ∀ (ws : List (List Char)) (i : ℕ),
    (∀ k : ℕ, i ≤ k → k < i + ws.length →
      0 < min (s + ((k : ℚ) + 1) * tpw) e - (s + (k : ℚ) * tpw)) →
    (highlightAux s e tpw i ws).length = ws.length
  | [], i, _ => by simp [highlightAux]
  | w :: rest, i, hpos => by
    have h0 := hpos i (le_refl i) (by simp)
    rw [highlightAux, if_neg (by linarith)]
    simp only [List.length_cons]
    rw [highlightAux_length s e tpw rest (i + 1)
      (fun k hk1 hk2 => hpos k (by omega) (by simp only [List.length_cons]; omega))]

/-- Indexed description of the highlight segments: when every word in
range has a positive clamped span, segment j of the run starting at index
i covers word j with the loop's interval formula. -/
lemma highlightAux_getElem? (s e tpw : ℚ) :
    ∀ (ws : List (List Char)) (i : ℕ),
    (∀ k : ℕ, i ≤ k → k < i + ws.length →
      0 < min (s + ((k : ℚ) + 1) * tpw) e - (s + (k : ℚ) * tpw)) →
    ∀ j : ℕ, (highlightAux s e tpw i ws)[j]? =
      ws[j]?.map (fun w => ⟨w, s + ((i + j : ℕ) : ℚ) * tpw,
        min (s + (((i + j : ℕ) : ℚ) + 1) * tpw) e⟩)
  | [], i, _, j => by simp [highlightAux]
  | w :: rest, i, hpos, j => by
    have h0 := hpos i (le_refl i) (by simp)
    rw [highlightAux, if_neg (by linarith)]
    cases j with
    | zero => simp
    | succ j =>
      have ih := highlightAux_getElem? s e tpw rest (i + 1)
        (fun k hk1 hk2 => hpos k (by omega) (by simp only [List.length_cons]; omega)) j
      simp only [List.getElem?_cons_succ]
      rw [ih]
      have harith : (i + 1) + j = i + (j + 1) := by omega
      rw [harith]

/-- Consecutive highlight segments touch or are separated: each one ends
no later than the next begins, and starts are nondecreasing. -/
lemma highlightAux_chain (s e tpw : ℚ) (htpw : 0 < tpw) :
    ∀ (ws : List (List Char)) (i : ℕ),
    (∀ k : ℕ, i ≤ k → k < i + ws.length →
      0 < min (s + ((k : ℚ) + 1) * tpw) e - (s + (k : ℚ) * tpw)) →
    List.Chain' (fun a b => a.stop ≤ b.start ∧ a.start ≤ b.start)
      (highlightAux s e tpw i ws)
  | [], i, _ => by simp [highlightAux]
  | w :: rest, i, hpos => by
    have h0 := hpos i (le_refl i) (by simp only [List.length_cons]; omega)
    rw [highlightAux, if_neg (by linarith)]
    have htail := highlightAux_chain s e tpw htpw rest (i + 1)
      (fun k hk1 hk2 => hpos k (by omega) (by simp only [List.length_cons]; omega))
    rcases rest with _ | ⟨w', rest'⟩
    · simp [highlightAux]
    · have h1 := hpos (i + 1) (by omega) (by simp only [List.length_cons]; omega)
      rw [highlightAux, if_neg (by linarith)] at htail ⊢
      rw [List.chain'_cons]
      refine ⟨⟨?_, ?_⟩, htail⟩
      · push_cast
        exact min_le_left _ _
      · push_cast
        nlinarith
  termination_by ws => ws.length

/-- Every emitted highlight segment carries the loop's interval formula
for some word index in range. -/
lemma highlightAux_mem (s e tpw : ℚ) :
    ∀ (ws : List (List Char)) (i : ℕ),
    (∀ k : ℕ, i ≤ k → k < i + ws.length →
      0 < min (s + ((k : ℚ) + 1) * tpw) e - (s + (k : ℚ) * tpw)) →
    ∀ g ∈ highlightAux s e tpw i ws,
      ∃ k : ℕ, i ≤ k ∧ k < i + ws.length ∧
        g.start = s + (k : ℚ) * tpw ∧ g.stop = min (s + ((k : ℚ) + 1) * tpw) e
  | [], _, _, g, hg => by simp [highlightAux] at hg
  | w :: rest, i, hpos, g, hg => by
    have h0 := hpos i (le_refl i) (by simp only [List.length_cons]; omega)
    rw [highlightAux, if_neg (by linarith)] at hg
    rcases List.mem_cons.mp hg with rfl | hg'
    · exact ⟨i, le_refl i, by simp only [List.length_cons]; omega, rfl, rfl⟩
    · obtain ⟨k, hk1, hk2, hk3, hk4⟩ := highlightAux_mem s e tpw rest (i + 1)
        (fun k hk1 hk2 => hpos k (by omega) (by simp only [List.length_cons]; omega)) g hg'
      exact ⟨k, by omega, by simp only [List.length_cons]; omega, hk3, hk4⟩

/-- C5: for a clipped entry with a nonempty word list and positive
duration, the Word Highlighter emits one segment per word, segment j
spanning [start + j*tpw, min(start + (j+1)*tpw, end)) with
tpw = duration/len(words); the segments are pairwise non-overlapping,
each lies within [start, end], and none has non-positive duration. -/
theorem word_highlighter_spec (text : List Char) (s e : ℚ)
    (hne : pyWords text ≠ []) (hlt : s < e) :
    (create_word_highlighting_clips text s e).length = (pyWords text).length ∧
    (∀ j : ℕ, (create_word_highlighting_clips text s e)[j]? =
      (pyWords text)[j]?.map (fun w =>
        ⟨w, s + (j : ℚ) * ((e - s) / ((pyWords text).length : ℚ)),
          min (s + ((j : ℚ) + 1) * ((e - s) / ((pyWords text).length : ℚ))) e⟩)) ∧
    List.Chain' (fun a b => a.stop ≤ b.start) (create_word_highlighting_clips text s e) ∧
    (∀ g ∈ create_word_highlighting_clips text s e,
      s ≤ g.start ∧ g.stop ≤ e ∧ 0 < g.stop - g.start) := by
  have hn0 : 0 < (pyWords text).length := List.length_pos.mpr hne
  have hnq : (0 : ℚ) < ((pyWords text).length : ℚ) := by exact_mod_cast hn0
  have htpw : 0 < (e - s) / ((pyWords text).length : ℚ) :=
    div_pos (by linarith) hnq
  have hes : ((pyWords text).length : ℚ) * ((e - s) / ((pyWords text).length : ℚ)) = e - s := by
    field_simp
  have hemp : (pyWords text).isEmpty = false := by
    cases h : pyWords text with
    | nil => exact absurd h hne
    | cons a l => rfl
  have hcwc : create_word_highlighting_clips text s e =
      highlightAux s e ((e - s) / ((pyWords text).length : ℚ)) 0 (pyWords text) := by
    rw [create_word_highlighting_clips]
    simp only [hemp, Bool.false_eq_true, if_false]
  have hpos : ∀ k : ℕ, 0 ≤ k → k < 0 + (pyWords text).length →
      0 < min (s + ((k : ℚ) + 1) * ((e - s) / ((pyWords text).length : ℚ))) e -
        (s + (k : ℚ) * ((e - s) / ((pyWords text).length : ℚ))) := by
    intro k _ hk
    rw [Nat.zero_add] at hk
    have hkq : (k : ℚ) < ((pyWords text).length : ℚ) := by exact_mod_cast hk
    have h1 : s + (k : ℚ) * ((e - s) / ((pyWords text).length : ℚ)) <
        s + ((k : ℚ) + 1) * ((e - s) / ((pyWords text).length : ℚ)) := by nlinarith
    have h2 : s + (k : ℚ) * ((e - s) / ((pyWords text).length : ℚ)) < e := by nlinarith
    have := lt_min h1 h2
    linarith
  refine ⟨?_, ?_, ?_, ?_⟩
  · rw [hcwc]
    exact highlightAux_length s e _ (pyWords text) 0 hpos
  · intro j
    rw [hcwc, highlightAux_getElem? s e _ (pyWords text) 0 hpos j]
    simp only [Nat.zero_add]
  · rw [hcwc]
    exact (highlightAux_chain s e _ htpw (pyWords text) 0 hpos).imp (fun a b h => h.1)
  · intro g hg
    rw [hcwc] at hg
    obtain ⟨k, hk0, hkn, hstart, hstop⟩ :=
      highlightAux_mem s e _ (pyWords text) 0 hpos g hg
    have hdur := hpos k hk0 hkn
    refine ⟨?_, ?_, ?_⟩
    · rw [hstart]
      have : 0 ≤ (k : ℚ) * ((e - s) / ((pyWords text).length : ℚ)) :=
        mul_nonneg (by positivity) (le_of_lt htpw)
      linarith
    · rw [hstop]
      exact min_le_right _ _
    · rw [hstart, hstop]
      linarith

/-- Witness for C5 on a concrete two-word entry. -/
theorem word_highlighter_spec_witness :
    (create_word_highlighting_clips ( "a b".toList) 0 2).length = 2 := by
  have h := (word_highlighter_spec ( "a b".toList) 0 2 (by decide) (by norm_num)).1
  rw [h]
  decide

/-! ### C1: the Caption Segmenter tiles the entry interval -/

/-- Length of the over-long caption split: one segment per index of
range(0, n, max_words), i.e. ceil(n/5) segments. -/
lemma create_subtitle_clip_length (text : List Char) (s e : ℚ)
    (hn : max_words < (pyWords text).length) :
    (create_subtitle_clip text s e).length = ((pyWords text).length + 4) / 5 := by
  simp only [create_subtitle_clip, if_pos hn, List.length_map, List.length_range']

/-- Indexed description of the over-long caption split: segment k shows
the k-th five-word chunk, starts at start + duration*(5k)/n, and runs for
duration * len(chunk)/n. -/
lemma create_subtitle_clip_getElem? (text : List Char) (s e : ℚ)
    (hn : max_words < (pyWords text).length) (k : ℕ)
    (hk : k < ((pyWords text).length + 4) / 5) :
    (create_subtitle_clip text s e)[k]? = some
      ⟨joinSp (((pyWords text).drop (5 * k)).take 5),
        s + (e - s) * ((5 * k : ℕ) : ℚ) / ((pyWords text).length : ℚ),
        s + (e - s) * ((5 * k : ℕ) : ℚ) / ((pyWords text).length : ℚ) +
          (e - s) * ((min 5 ((pyWords text).length - 5 * k) : ℕ) : ℚ) /
            ((pyWords text).length : ℚ)⟩ := by
  simp only [create_subtitle_clip, if_pos hn, List.getElem?_map,
    List.getElem?_range' 0 5 hk, Option.map_some', Nat.zero_add, Option.some.injEq]
  simp only [List.length_take, List.length_drop]

/-- Consecutive segments of the over-long caption split share a
boundary: each segment's end is the next segment's start. -/
lemma create_subtitle_clip_chain (text : List Char) (s e : ℚ)
    (hn : max_words < (pyWords text).length) :
    List.Chain' (fun a b => a.stop = b.start) (create_subtitle_clip text s e) := by
  rw [List.chain'_iff_get]
  intro i hi
  rw [create_subtitle_clip_length text s e hn] at hi
  have hi1 : i + 1 < ((pyWords text).length + 4) / 5 := by omega
  have hi0 : i < ((pyWords text).length + 4) / 5 := by omega
  have hnz : ((pyWords text).length : ℚ) ≠ 0 := by
    have : 0 < (pyWords text).length := by omega
    exact_mod_cast this.ne.symm
  have e0 := create_subtitle_clip_getElem? text s e hn i hi0
  have e1 := create_subtitle_clip_getElem? text s e hn (i + 1) hi1
  have l0 : i < (create_subtitle_clip text s e).length := by
    rw [create_subtitle_clip_length text s e hn]; omega
  have l1 : i + 1 < (create_subtitle_clip text s e).length := by
    rw [create_subtitle_clip_length text s e hn]; omega
  rw [List.getElem?_eq_getElem l0, Option.some_inj] at e0
  rw [List.getElem?_eq_getElem l1, Option.some_inj] at e1
  simp only [List.get_eq_getElem]
  rw [e0, e1]
  have hmin : min 5 ((pyWords text).length - 5 * i) = 5 := by
    apply min_eq_left
    omega
  rw [hmin]
  show s + (e - s) * ((5 * i : ℕ) : ℚ) / ((pyWords text).length : ℚ) +
      (e - s) * ((5 : ℕ) : ℚ) / ((pyWords text).length : ℚ) =
    s + (e - s) * ((5 * (i + 1) : ℕ) : ℚ) / ((pyWords text).length : ℚ)
  push_cast
  field_simp
  ring

/-- A chained segment list's durations telescope: they sum to the last
end minus the first start. -/
lemma chain_sum_tiles :
    ∀ (l : List CaptionSegment) (hne : l ≠ []),
    List.Chain' (fun a b => a.stop = b.start) l →
    (l.map (fun g => g.stop - g.start)).sum = (l.getLast hne).stop - (l.head hne).start
  | [x], _, _ => by simp
  | x :: y :: t, _, hch => by
    rw [List.chain'_cons] at hch
    have ih := chain_sum_tiles (y :: t) (by simp) hch.2
    simp only [List.map_cons, List.sum_cons] at ih ⊢
    rw [List.getLast_cons (by simp : (y :: t) ≠ [])]
    simp only [List.head_cons] at ih ⊢
    rw [ih]
    have := hch.1
    linarith

/-- C1: for an entry with more than max_words words, the caption
segments exactly tile the entry's interval: segment k starts at
start + duration*(5k)/n, lasts duration*len(chunk k)/n, the first
segment starts at entry.start, the last ends at entry.end, consecutive
segments share their boundary, and the durations sum to the entry's
duration. -/
theorem caption_segments_tile (text : List Char) (s e : ℚ)
    (hn : max_words < (pyWords text).length) :
    2 ≤ ((pyWords text).length + 4) / 5 ∧
    (create_subtitle_clip text s e).length = ((pyWords text).length + 4) / 5 ∧
    (∀ k : ℕ, k < ((pyWords text).length + 4) / 5 →
      (create_subtitle_clip text s e)[k]? = some
        ⟨joinSp (((pyWords text).drop (5 * k)).take 5),
          s + (e - s) * ((5 * k : ℕ) : ℚ) / ((pyWords text).length : ℚ),
          s + (e - s) * ((5 * k : ℕ) : ℚ) / ((pyWords text).length : ℚ) +
            (e - s) * ((min 5 ((pyWords text).length - 5 * k) : ℕ) : ℚ) /
              ((pyWords text).length : ℚ)⟩) ∧
    (create_subtitle_clip text s e).head?.map CaptionSegment.start = some s ∧
    (create_subtitle_clip text s e).getLast?.map CaptionSegment.stop = some e ∧
    List.Chain' (fun a b => a.stop = b.start) (create_subtitle_clip text s e) ∧
    ((create_subtitle_clip text s e).map (fun g => g.stop - g.start)).sum = e - s := by
  have hn5 : 5 < (pyWords text).length := hn
  have hm2 : 2 ≤ ((pyWords text).length + 4) / 5 := by omega
  have hlen := create_subtitle_clip_length text s e hn
  have hnz : ((pyWords text).length : ℚ) ≠ 0 := by
    have : 0 < (pyWords text).length := by omega
    exact_mod_cast this.ne.symm
  have hchain := create_subtitle_clip_chain text s e hn
  have hhead : (create_subtitle_clip text s e).head?.map CaptionSegment.start = some s := by
    rw [List.head?_eq_getElem?,
      create_subtitle_clip_getElem? text s e hn 0 (by omega)]
    simp
  have hlast : (create_subtitle_clip text s e).getLast?.map CaptionSegment.stop = some e := by
    rw [List.getLast?_eq_getElem?, hlen,
      create_subtitle_clip_getElem? text s e hn (((pyWords text).length + 4) / 5 - 1)
        (by omega)]
    have hle : 5 * (((pyWords text).length + 4) / 5 - 1) ≤ (pyWords text).length := by omega
    have hminr : min 5 ((pyWords text).length - 5 * (((pyWords text).length + 4) / 5 - 1)) =
        (pyWords text).length - 5 * (((pyWords text).length + 4) / 5 - 1) := by
      apply min_eq_right
      omega
    rw [hminr]
    simp only [Option.map_some', Option.some.injEq]
    show s + (e - s) * _ / _ + (e - s) * _ / _ = e
    rw [Nat.cast_sub hle]
    field_simp
    ring
  have hne : create_subtitle_clip text s e ≠ [] := by
    intro h
    rw [h] at hlen
    simp at hlen
    omega
  refine ⟨hm2, hlen, fun k hk => create_subtitle_clip_getElem? text s e hn k hk,
    hhead, hlast, hchain, ?_⟩
  have hsum := chain_sum_tiles (create_subtitle_clip text s e) hne hchain
  rw [List.head?_eq_head hne] at hhead
  rw [List.getLast?_eq_getLast _ hne] at hlast
  simp only [Option.map_some', Option.some.injEq] at hhead hlast
  rw [hsum, hhead, hlast]

/-- Witness for C1: on the six-word sample entry the caption segment
durations sum to the entry's duration. -/
theorem caption_segments_tile_witness :
    ((create_subtitle_clip sampleText 2 6).map (fun g => g.stop - g.start)).sum = 4 := by
  have h := (caption_segments_tile sampleText 2 6 (by decide)).2.2.2.2.2.2
  rw [h]
  norm_num

/-! ### C6: the Timeline Assembler -/

/-- On a nonempty word list the highlighter is the indexed loop from
word zero. -/
lemma cwhc_eq_highlightAux (text : List Char) (s e : ℚ) (hne : pyWords text ≠ []) :
    create_word_highlighting_clips text s e =
      highlightAux s e ((e - s) / ((pyWords text).length : ℚ)) 0 (pyWords text) := by
  have hemp : (pyWords text).isEmpty = false := by
    cases h : pyWords text with
    | nil => exact absurd h hne
    | cons a l => rfl
  rw [create_word_highlighting_clips]
  simp only [hemp, Bool.false_eq_true, if_false]

/-- With a positive duration, every word's clamped span is positive. -/
lemma highlight_pos_all (text : List Char) (s e : ℚ) (hne : pyWords text ≠ [])
    (hlt : s < e) :
    ∀ k : ℕ, 0 ≤ k → k < 0 + (pyWords text).length →
      0 < min (s + ((k : ℚ) + 1) * ((e - s) / ((pyWords text).length : ℚ))) e -
        (s + (k : ℚ) * ((e - s) / ((pyWords text).length : ℚ))) := by
  have hn0 : 0 < (pyWords text).length := List.length_pos.mpr hne
  have hnq : (0 : ℚ) < ((pyWords text).length : ℚ) := by exact_mod_cast hn0
  have htpw : 0 < (e - s) / ((pyWords text).length : ℚ) := div_pos (by linarith) hnq
  have hes : ((pyWords text).length : ℚ) * ((e - s) / ((pyWords text).length : ℚ)) = e - s := by
    field_simp
  intro k _ hk
  rw [Nat.zero_add] at hk
  have hkq : (k : ℚ) < ((pyWords text).length : ℚ) := by exact_mod_cast hk
  have h1 : s + (k : ℚ) * ((e - s) / ((pyWords text).length : ℚ)) <
      s + ((k : ℚ) + 1) * ((e - s) / ((pyWords text).length : ℚ)) := by nlinarith
  have h2 : s + (k : ℚ) * ((e - s) / ((pyWords text).length : ℚ)) < e := by nlinarith
  have := lt_min h1 h2
  linarith

/-- Caption segment starts are nondecreasing within one entry. -/
lemma create_subtitle_clip_chain_start_le (text : List Char) (s e : ℚ) (hd : s ≤ e) :
    List.Chain' (fun a b => a.start ≤ b.start) (create_subtitle_clip text s e) := by
  by_cases hn : max_words < (pyWords text).length
  · rw [List.chain'_iff_get]
    intro i hi
    rw [create_subtitle_clip_length text s e hn] at hi
    have hi1 : i + 1 < ((pyWords text).length + 4) / 5 := by omega
    have hi0 : i < ((pyWords text).length + 4) / 5 := by omega
    have hn5 : 5 < (pyWords text).length := hn
    have hnq : (0 : ℚ) < ((pyWords text).length : ℚ) := by
      exact_mod_cast Nat.lt_of_lt_of_le (by norm_num) (by omega : 6 ≤ (pyWords text).length)
    have e0 := create_subtitle_clip_getElem? text s e hn i hi0
    have e1 := create_subtitle_clip_getElem? text s e hn (i + 1) hi1
    have l0 : i < (create_subtitle_clip text s e).length := by
      rw [create_subtitle_clip_length text s e hn]; omega
    have l1 : i + 1 < (create_subtitle_clip text s e).length := by
      rw [create_subtitle_clip_length text s e hn]; omega
    rw [List.getElem?_eq_getElem l0, Option.some_inj] at e0
    rw [List.getElem?_eq_getElem l1, Option.some_inj] at e1
    simp only [List.get_eq_getElem]
    rw [e0, e1]
    show s + (e - s) * _ / _ ≤ s + (e - s) * _ / _
    have hcast : ((5 * i : ℕ) : ℚ) ≤ ((5 * (i + 1) : ℕ) : ℚ) := by
      exact_mod_cast Nat.mul_le_mul_left 5 (by omega)
    have hd' : (0 : ℚ) ≤ e - s := by linarith
    gcongr
  · unfold create_subtitle_clip
    rw [if_neg hn]
    exact List.chain'_singleton _

/-- Highlight segment starts are nondecreasing within one entry. -/
lemma cwhc_chain_start_le (text : List Char) (s e : ℚ) (hlt : s < e) :
    List.Chain' (fun a b => a.start ≤ b.start) (create_word_highlighting_clips text s e) := by
  by_cases hne : pyWords text = []
  · rw [create_word_highlighting_clips]
    simp [hne]
  · have hn0 : 0 < (pyWords text).length := List.length_pos.mpr hne
    have hnq : (0 : ℚ) < ((pyWords text).length : ℚ) := by exact_mod_cast hn0
    have htpw : 0 < (e - s) / ((pyWords text).length : ℚ) := div_pos (by linarith) hnq
    rw [cwhc_eq_highlightAux text s e hne]
    exact (highlightAux_chain s e _ htpw (pyWords text) 0
      (highlight_pos_all text s e hne hlt)).imp (fun a b h => h.2)

/-- Counterexample to C6 as stated: the assembled timeline for the
six-word sample entry is not sorted by start time — the second caption
segment (start 16/3) precedes the first highlight segment (start 2). -/
theorem timeline_not_sorted :
    ¬ List.Chain' (fun a b => a.start ≤ b.start)
      (assembleTimeline 10 [⟨2, 6, sampleText⟩]) := by
  have h : assembleTimeline 10 [⟨2, 6, sampleText⟩] =
      [⟨Layer.caption, "This is a test sentence".toList, 2, 16/3⟩,
        ⟨Layer.caption, "here".toList, 16/3, 6⟩,
        ⟨Layer.highlight, "This".toList, 2, 8/3⟩,
        ⟨Layer.highlight, "is".toList, 8/3, 10/3⟩,
        ⟨Layer.highlight, "a".toList, 10/3, 4⟩,
        ⟨Layer.highlight, "test".toList, 4, 14/3⟩,
        ⟨Layer.highlight, "sentence".toList, 14/3, 16/3⟩,
        ⟨Layer.highlight, "here".toList, 16/3, 6⟩] := by
    norm_num +decide [assembleTimeline, capSegsOf, hlSegsOf, create_subtitle_clip,
      create_word_highlighting_clips, highlightAux, pyWords, pyWordsAux, pyWs, max_words,
      List.range', joinSp, min_def, sampleText]
  rw [h]
  simp only [List.chain'_cons, List.chain'_singleton, and_true]
  intro hc
  have := hc.2.1
  norm_num at this

/-- C6 (amended): the assembler performs no sort; its output is, in
input order, each surviving entry's caption segments followed by that
entry's highlight segments, and only within each of those per-entry
layers are the start times guaranteed nondecreasing. -/
theorem timeline_order (videoDur : ℚ) (subs : List ClippedEntry)
    (h : ∀ sub ∈ subs, sub.start < sub.stop) :
    assembleTimeline videoDur subs =
      (subs.filter (fun sub => decide (sub.start < videoDur ∧ sub.stop ≤ videoDur))).bind
        (fun sub => capSegsOf sub ++ hlSegsOf sub) ∧
    (∀ sub ∈ subs, List.Chain' (fun a b => a.start ≤ b.start) (capSegsOf sub) ∧
      List.Chain' (fun a b => a.start ≤ b.start) (hlSegsOf sub)) := by
  constructor
  · induction subs with
    | nil => rfl
    | cons x t ih =>
      by_cases hc : x.start < videoDur ∧ x.stop ≤ videoDur
      · simp only [assembleTimeline, if_pos hc, List.filter_cons, decide_eq_true hc,
          List.cons_bind, if_true, List.append_assoc,
          ih (fun sub hs => h sub (List.mem_cons_of_mem x hs))]
      · simp only [assembleTimeline, if_neg hc, List.filter_cons, decide_eq_false hc,
          Bool.false_eq_true, if_false,
          ih (fun sub hs => h sub (List.mem_cons_of_mem x hs))]
  · intro sub hs
    have hlt := h sub hs
    constructor
    · rw [capSegsOf, List.chain'_map]
      exact create_subtitle_clip_chain_start_le sub.text sub.start sub.stop (le_of_lt hlt)
    · rw [hlSegsOf, List.chain'_map]
      exact cwhc_chain_start_le sub.text sub.start sub.stop hlt

/-- Witness for the amended C6 on the sample entry. -/
theorem timeline_order_witness :
    List.Chain' (fun a b => a.start ≤ b.start) (capSegsOf ⟨2, 6, sampleText⟩) :=
  ((timeline_order 10 [⟨2, 6, sampleText⟩]
    (by intro sub hs; simp only [List.mem_singleton] at hs; subst hs; norm_num)).2
    ⟨2, 6, sampleText⟩ (by simp)).1

/-! ### C10: the Transcript Parser never raises -/

/-- A digit character is not a comma. -/
lemma digit_ne_comma {c : Char} (h : c.isDigit = true) : ¬(c = ',') := by
  intro he
  rw [he] at h
  exact absurd h (by decide)

/-- A digit character is not a colon. -/
lemma digit_ne_colon {c : Char} (h : c.isDigit = true) : ¬(c = ':') := by
  intro he
  rw [he] at h
  exact absurd h (by decide)

/-- A digit character is not a minus sign. -/
lemma digit_ne_dash {c : Char} (h : c.isDigit = true) : ¬(c = '-') := by
  intro he
  rw [he] at h
  exact absurd h (by decide)

/-- A digit character is not a plus sign. -/
lemma digit_ne_plus {c : Char} (h : c.isDigit = true) : ¬(c = '+') := by
  intro he
  rw [he] at h
  exact absurd h (by decide)

/-- A digit character is not whitespace. -/
lemma digit_not_ws {c : Char} (h : c.isDigit = true) : pyWs c = false := by
  cases hc : pyWs c
  · rfl
  · exfalso
    simp only [pyWs, Bool.or_eq_true, beq_iff_eq] at hc
    rcases hc with ((((rfl | rfl) | rfl) | rfl) | rfl) | rfl <;> exact absurd h (by decide)

/-- Any string matching the parser's timestamp pattern is accepted by
timestamp_to_seconds: the regex guard makes the int() calls safe. -/
lemma isTs_decode (t : List Char) (h : isTs t = true) :
    ∃ v, timestamp_to_seconds t = some v := by
  unfold isTs at h
  simp only [Bool.and_eq_true, beq_iff_eq] at h
  obtain ⟨h, h11⟩ := h
  obtain ⟨h, h10⟩ := h
  obtain ⟨h, h9⟩ := h
  obtain ⟨h, hc8⟩ := h
  obtain ⟨h, h7⟩ := h
  obtain ⟨h, h6⟩ := h
  obtain ⟨h, hc5⟩ := h
  obtain ⟨h, h4⟩ := h
  obtain ⟨h, h3⟩ := h
  obtain ⟨h, hc2⟩ := h
  obtain ⟨h, h1⟩ := h
  obtain ⟨hlen, h0⟩ := h
  obtain ⟨c0, t, rfl⟩ := List.exists_cons_of_ne_nil (show t ≠ [] by rintro rfl; simp at hlen)
  obtain ⟨c1, t, rfl⟩ := List.exists_cons_of_ne_nil (show t ≠ [] by rintro rfl; simp at hlen)
  obtain ⟨c2, t, rfl⟩ := List.exists_cons_of_ne_nil (show t ≠ [] by rintro rfl; simp at hlen)
  obtain ⟨c3, t, rfl⟩ := List.exists_cons_of_ne_nil (show t ≠ [] by rintro rfl; simp at hlen)
  obtain ⟨c4, t, rfl⟩ := List.exists_cons_of_ne_nil (show t ≠ [] by rintro rfl; simp at hlen)
  obtain ⟨c5, t, rfl⟩ := List.exists_cons_of_ne_nil (show t ≠ [] by rintro rfl; simp at hlen)
  obtain ⟨c6, t, rfl⟩ := List.exists_cons_of_ne_nil (show t ≠ [] by rintro rfl; simp at hlen)
  obtain ⟨c7, t, rfl⟩ := List.exists_cons_of_ne_nil (show t ≠ [] by rintro rfl; simp at hlen)
  obtain ⟨c8, t, rfl⟩ := List.exists_cons_of_ne_nil (show t ≠ [] by rintro rfl; simp at hlen)
  obtain ⟨c9, t, rfl⟩ := List.exists_cons_of_ne_nil (show t ≠ [] by rintro rfl; simp at hlen)
  obtain ⟨c10, t, rfl⟩ := List.exists_cons_of_ne_nil (show t ≠ [] by rintro rfl; simp at hlen)
  obtain ⟨c11, t, rfl⟩ := List.exists_cons_of_ne_nil (show t ≠ [] by rintro rfl; simp at hlen)
  simp only [List.length_cons] at hlen
  have ht : t = [] := List.length_eq_zero.mp (by omega)
  subst ht
  simp only [List.getD_cons_zero, List.getD_cons_succ] at h0 h1 hc2 h3 h4 hc5 h6 h7 hc8 h9 h10 h11
  subst hc2
  subst hc5
  subst hc8
  unfold timestamp_to_seconds pySplitOn
  simp only [pySplitAux, if_neg (digit_ne_comma h0), if_neg (digit_ne_comma h1),
    if_neg (digit_ne_comma h3), if_neg (digit_ne_comma h4), if_neg (digit_ne_comma h6),
    if_neg (digit_ne_comma h7), if_neg (digit_ne_comma h9), if_neg (digit_ne_comma h10),
    if_neg (digit_ne_comma h11), if_neg (by decide : ¬(':' = ',')),
    if_pos (rfl : ',' = ','), if_true, List.reverse_cons, List.reverse_nil, List.nil_append,
    List.cons_append, List.append_nil]
  simp only [pySplitAux, if_neg (digit_ne_colon h0), if_neg (digit_ne_colon h1),
    if_neg (digit_ne_colon h3), if_neg (digit_ne_colon h4), if_neg (digit_ne_colon h6),
    if_neg (digit_ne_colon h7), if_pos (rfl : ':' = ':'), if_true, List.reverse_cons,
    List.reverse_nil, List.nil_append, List.cons_append, List.append_nil]
  unfold pyIntL pyNat trimL
  simp only [List.dropWhile_cons, digit_not_ws h0, digit_not_ws h1, digit_not_ws h3,
    digit_not_ws h4, digit_not_ws h6, digit_not_ws h7, digit_not_ws h9, digit_not_ws h10,
    digit_not_ws h11, Bool.false_eq_true, if_false, List.reverse_cons, List.reverse_nil,
    List.nil_append, List.cons_append, List.append_nil, List.headD_cons,
    if_neg (digit_ne_dash h0), if_neg (digit_ne_plus h0), if_neg (digit_ne_dash h3),
    if_neg (digit_ne_plus h3), if_neg (digit_ne_dash h6), if_neg (digit_ne_plus h6),
    if_neg (digit_ne_dash h9), if_neg (digit_ne_plus h9), List.isEmpty_cons,
    List.all_cons, List.all_nil, h0, h1, h3, h4, h6, h7, h9, h10, h11, Bool.and_true,
    Bool.and_self, if_true, Option.map_some']
  exact ⟨_, rfl⟩

/-- A successful timestamp-line match yields two strings that satisfy
the timestamp pattern. -/
lemma matchTsLine_isTs {l t1 t2 : List Char} (h : matchTsLine l = some (t1, t2)) :
    isTs t1 = true ∧ isTs t2 = true := by
  unfold matchTsLine at h
  split_ifs at h with h1 h2 h3
  · simp only [Option.some.injEq, Prod.mk.injEq] at h
    exact ⟨h.1 ▸ h1, h.2 ▸ h3⟩

/-- Mapping an error-free step over a list is error-free. -/
lemma mapM_except_ok {ε α β : Type} (f : α → Except ε β) :
    ∀ bs : List α, (∀ b ∈ bs, ∃ y, f b = Except.ok y) →
      ∃ l, bs.mapM f = Except.ok l
  | [], _ => ⟨[], rfl⟩
  | b :: bs, h => by
    obtain ⟨y, hy⟩ := h b (List.mem_cons_self b bs)
    obtain ⟨l, hl⟩ := mapM_except_ok f bs (fun x hx => h x (List.mem_cons_of_mem b hx))
    refine ⟨y :: l, ?_⟩
    rw [List.mapM_cons, hy, hl]
    rfl

/-- One block of the parser never raises: a failed length check or a
failed regex match drops the block, and a successful match guarantees
both timestamp decodes succeed. -/
lemma parseBlockE_ok (b : List Char) : ∃ o, parseBlockE b = Except.ok o := by
  unfold parseBlockE
  split
  · split
    · next st en hm =>
      obtain ⟨ht1, ht2⟩ := matchTsLine_isTs hm
      obtain ⟨v1, hv1⟩ := isTs_decode _ ht1
      obtain ⟨v2, hv2⟩ := isTs_decode _ ht2
      rw [hv1, hv2]
      exact ⟨_, rfl⟩
    · exact ⟨none, rfl⟩
  · exact ⟨none, rfl⟩

/-- The whole-content parse body never raises. -/
lemma parseSrtE_ok (content : List Char) : ∃ l, parseSrtE content = Except.ok l := by
  unfold parseSrtE
  obtain ⟨l, hl⟩ := mapM_except_ok parseBlockE (splitBlocks (trimL content))
    (fun b _ => parseBlockE_ok b)
  rw [hl]
  exact ⟨_, rfl⟩

/-- A transcript whose two blocks are both malformed: the first has a
non-matching timestamp line, the second has a too-short timestamp. -/
def malformedTrack : List Char :=
  "1\nnot a timestamp\nhello\n\n2\n00:00 --> 00:01\nworld".toList

/-- C10: the Transcript Parser never raises — the parse body is
error-free for every input, the except handler maps an unreadable file
to the empty list, and an empty track and a fully malformed track also
both produce the empty list, indistinguishable from one another by the
return value. -/
theorem parser_never_raises :
    (∀ content : List Char, ∃ entries, parseSrtE content = Except.ok entries) ∧
    parse_srt_file none = [] ∧
    parse_srt_file (some []) = [] ∧
    parse_srt_file (some malformedTrack) = [] := by
  refine ⟨parseSrtE_ok, rfl, by decide, by decide⟩
